import Mathlib

/-!
Verification of the `http-fancy` body-aggregation core (`src/body.rs`).

The development shallowly embeds the code:
* `Body` / `Body.pollFrame` — the fixed-buffer `HttpBody` implementation;
* `Collector` — the `Collector` trait, as a record of operations over a
  state type (`append`, `len`, `onTrailers`, `consume`);
* `vecCollector` — the `impl Collector for Vec<u8>`;
* `ZstdModel`, `DecompressState`, `dcAppend`, `dcLen`, `dcConsume` — the
  `DecompressCollector`, parameterized by a model of the external zstd
  streaming write-decoder (the `zstd` crate is not part of this repository);
* `collectPoll` — the loop of `Collect::poll`, run over the sequence of
  events the source yields before exhaustion.  It additionally returns the
  final collector state and a ghost log of the sink operations performed,
  used to state "never invoked" properties; the control flow is otherwise
  exactly that of the source.

Machine arithmetic: `usize` values are embedded as `Nat`; the engine's
`saturating_add` / `checked_sub` are modelled explicitly (`satAdd`,
`checkedSub`) with `USIZE_MAX = 2 ^ 64 - 1`.
-/

/-- Bytes are embedded as naturals. -/
abbrev Byte := Nat

/-- A chunk of bytes (`bytes::Bytes` / `Vec<u8>` contents). -/
abbrev Chunk := List Byte

/-- An `http::HeaderMap`, embedded as an association list. -/
abbrev Headers := List (String × String)

/-- Largest `usize` value (64-bit platform), `2 ^ 64 - 1`. -/
def USIZE_MAX : Nat := 18446744073709551615

/-- `usize::saturating_add`. -/
def satAdd (a b : Nat) : Nat := min (a + b) USIZE_MAX

/-- `usize::checked_sub`. -/
def checkedSub (a b : Nat) : Option Nat := if b ≤ a then some (a - b) else none

deriving instance DecidableEq for Except

/-- `core::convert::Infallible`: an uninhabited error type. -/
inductive Infallible : Type

instance : DecidableEq Infallible := fun a _ => isTrue (nomatch a)

/-- `http_body::Frame`: a data chunk or a trailer map. -/
inductive Frame
  | data (bytes : Chunk)
  | trailers (headers : Headers)
deriving DecidableEq

/-- One event yielded by a frame source before exhaustion: a frame, or a
transport error (`Poll::Ready(Some(Err(e)))`). -/
inductive SourceEvent (τ : Type)
  | frame (f : Frame)
  | err (e : τ)
deriving DecidableEq

/-- `core::task::Poll`. -/
inductive Poll (α : Type)
  | ready (value : α)
  | pending
deriving DecidableEq

/-- The fixed-buffer `Body`: a single in-memory byte buffer. -/
structure Body where
  inner : Chunk
deriving DecidableEq

/-- `<Body as HttpBody>::poll_frame`: if the buffer is non-empty, swap it out
and return it as one data frame; otherwise signal exhaustion.  The context is
unused; the error type is `Infallible`. -/
def Body.pollFrame (b : Body) : Poll (Option (Except Infallible Frame)) × Body :=
  if b.inner.isEmpty = false then
    (Poll.ready (some (Except.ok (Frame.data b.inner))), Body.mk [])
  else
    (Poll.ready none, b)

/-- The `Collector` trait: a record of operations over a state type `σ`,
with error type `ε` and output type `ω`. -/
structure Collector (σ ε ω : Type) where
  append : σ → Chunk → σ × Option ε
  len : σ → Nat
  onTrailers : σ → Headers → σ
  consume : σ → σ × Except ε ω

/-- Ghost log entry: one call the engine made into the sink. -/
inductive SinkOp
  | append (chunk : Chunk)
  | trailers (hs : Headers)
  | consume
deriving DecidableEq

/-- `CollectError`: the error type of the `Collect` future. -/
inductive CollectError (T C : Type)
  | transport (e : T)
  | collector (e : C)
  | overflow
deriving DecidableEq

/-- The loop of `Collect::poll`, over the list of events the source yields
before exhaustion (a `Pending` poll suspends and later resumes at the same
loop position with unchanged state, so the resolved value of the future is
the value computed here).  Returns the result, the final collector state, and
the ghost log of sink calls in order.  Control flow follows the source: on a
data frame, first `checked_sub(S, len().saturating_add(data.len()))` decides
overflow, then a zero-length chunk is skipped, otherwise `append` is called;
trailers go to `on_trailers`; exhaustion calls `consume` exactly once. -/
def collectPoll {σ ε ω τ : Type} (S : Nat) (C : Collector σ ε ω) :
    σ → List (SourceEvent τ) → Except (CollectError τ ε) ω × σ × List SinkOp
  | st, [] =>
      match C.consume st with
      | (st2, Except.ok out) => (Except.ok out, st2, [SinkOp.consume])
      | (st2, Except.error e) => (Except.error (CollectError.collector e), st2, [SinkOp.consume])
  | st, SourceEvent.err e :: _ => (Except.error (CollectError.transport e), st, [])
  | st, SourceEvent.frame (Frame.trailers hs) :: rest =>
      let r := collectPoll S C (C.onTrailers st hs) rest
      (r.1, r.2.1, SinkOp.trailers hs :: r.2.2)
  | st, SourceEvent.frame (Frame.data d) :: rest =>
      match checkedSub S (satAdd (C.len st) d.length) with
      | none => (Except.error CollectError.overflow, st, [])
      | some _ =>
          if d.length = 0 then
            collectPoll S C st rest
          else
            match C.append st d with
            | (st2, some e) => (Except.error (CollectError.collector e), st2, [SinkOp.append d])
            | (st2, none) =>
                let r := collectPoll S C st2 rest
                (r.1, r.2.1, SinkOp.append d :: r.2.2)

/-- A source that yields the given data chunks, in order, then exhausts. -/
def dataEvents (cs : List Chunk) : List (SourceEvent Unit) :=
  cs.map (fun c => SourceEvent.frame (Frame.data c))

/-- `impl Collector for Vec<u8>`: `append` extends the buffer, `len` is the
buffer length, `on_trailers` is a no-op, `consume` swaps the buffer out for an
empty one and returns it. -/
def vecCollector : Collector Chunk Infallible Chunk where
  append := fun s d => (s ++ d, none)
  len := fun s => s.length
  onTrailers := fun s _ => s
  consume := fun s => ([], Except.ok s)

/-- `DecompressCollector::ZSTD_HEADER`: the little-endian bytes of
`0xFD2FB528`. -/
def ZSTD_HEADER : List Byte := [0x28, 0xB5, 0x2F, 0xFD]

/-- Modelled from the spec: the external `zstd` crate's streaming
write-decoder (`zstd::stream::write::Decoder<Vec<u8>>`), which is not part of
this repository.  The decoder is identified with the byte sequence it has
absorbed so far:
* `outSoFar a` — the decoded bytes the decoder has written to its inner
  `Vec<u8>` writer after absorbing `a`, before the final flush
  (`get_ref()` contents);
* `outFinal a` — the inner writer's contents after absorbing `a` and then a
  successful `flush()` (`into_inner()` contents);
* `accepts a` — whether constructing the decoder and writing the stream `a`
  into it succeeds (`Decoder::new` / `write_all` do not error);
* `flushOk a` — whether the final `flush()` succeeds after absorbing `a`. -/
structure ZstdModel where
  outSoFar : List Byte → List Byte
  outFinal : List Byte → List Byte
  accepts : List Byte → Bool
  flushOk : List Byte → Bool

/-- `DecompressState`: `Uninit(buffer)`, `Plain(buffer)`, or the zstd decoder
(identified with the bytes it has absorbed). -/
inductive DecompressState
  | uninit (buffer : List Byte)
  | plain (buffer : List Byte)
  | zstd (absorbed : List Byte)
deriving DecidableEq

/-- `DecompressError` (the `std::io::Error` payload is not modelled). -/
inductive DecompressError
  | zstd
deriving DecidableEq

/-- `DecompressCollector::append`.  In `Uninit`, extend the buffer; below the
magic-number length stay put; otherwise transition: on a magic prefix build a
decoder and feed it the whole buffer (on decoder failure the error is returned
and the state remains `Uninit` with the extended buffer), else move the buffer
into `Plain`.  In `Plain`, extend the buffer.  In `Zstd`, feed the decoder. -/
def dcAppend (M : ZstdModel) : DecompressState → Chunk → DecompressState × Option DecompressError
  | DecompressState.uninit buffer, d =>
      let buffer := buffer ++ d
      if buffer.length < ZSTD_HEADER.length then
        (DecompressState.uninit buffer, none)
      else if ZSTD_HEADER.isPrefixOf buffer then
        if M.accepts buffer then (DecompressState.zstd buffer, none)
        else (DecompressState.uninit buffer, some DecompressError.zstd)
      else
        (DecompressState.plain buffer, none)
  | DecompressState.plain buffer, d => (DecompressState.plain (buffer ++ d), none)
  | DecompressState.zstd absorbed, d =>
      let absorbed := absorbed ++ d
      if M.accepts absorbed then (DecompressState.zstd absorbed, none)
      else (DecompressState.zstd absorbed, some DecompressError.zstd)

/-- `DecompressCollector::len`: buffer length in `Uninit`/`Plain`; in `Zstd`,
`decoder.get_ref().len()` — the length of the inner writer's contents. -/
def dcLen (M : ZstdModel) : DecompressState → Nat
  | DecompressState.uninit buffer => buffer.length
  | DecompressState.plain buffer => buffer.length
  | DecompressState.zstd absorbed => (M.outSoFar absorbed).length

/-- `DecompressCollector::consume`: swap the state out for `Uninit(Vec::new())`,
then finalize the old state (flushing the decoder in the `Zstd` case). -/
def dcConsume (M : ZstdModel) (st : DecompressState) :
    DecompressState × Except DecompressError Chunk :=
  match st with
  | DecompressState.uninit result => (DecompressState.uninit [], Except.ok result)
  | DecompressState.plain result => (DecompressState.uninit [], Except.ok result)
  | DecompressState.zstd absorbed =>
      if M.flushOk absorbed then (DecompressState.uninit [], Except.ok (M.outFinal absorbed))
      else (DecompressState.uninit [], Except.error DecompressError.zstd)

/-- Sequential `append` calls, stopping at the first error (the engine stops
driving a sink whose `append` errored). -/
def dcFeedAll (M : ZstdModel) : DecompressState → List Chunk → DecompressState × Option DecompressError
  | st, [] => (st, none)
  | st, c :: cs =>
      match dcAppend M st c with
      | (st2, none) => dcFeedAll M st2 cs
      | (st2, some e) => (st2, some e)

/-- `DecompressCollector` packaged as a `Collector` (`on_trailers` is a
no-op). -/
def decompressCollector (M : ZstdModel) : Collector DecompressState DecompressError Chunk where
  append := dcAppend M
  len := dcLen M
  onTrailers := fun s _ => s
  consume := dcConsume M

/-- Modelled from the spec: one concrete instance of the zstd decoder model,
for witnesses and counterexamples.  Compressed streams are
`ZSTD_HEADER ++ payload`; a decoder that has absorbed only the 4-byte magic
number has not yet written any decoded output (no payload is decodable from
the frame header alone), which `outSoFar` reflects by dropping the header. -/
def mW : ZstdModel where
  outSoFar := fun a => a.drop 4
  outFinal := fun a => a.drop 4
  accepts := fun _ => true
  flushOk := fun _ => true

/-- Modelled from the spec: a zstd decoder model with expansion ratio 20 —
each absorbed payload byte past the 4-byte header yields 20 decoded zero
bytes already written to the inner writer (streaming decompression writes
decoded output out as it goes, so the output can exceed the compressed input
long before the final flush). -/
def mExpand : ZstdModel where
  outSoFar := fun a => List.replicate (20 * (a.length - 4)) 0
  outFinal := fun a => List.replicate (20 * (a.length - 4)) 0
  accepts := fun _ => true
  flushOk := fun _ => true

/-! ## Helper lemmas -/

theorem byteListPre_iff (p l : List Byte) : p.isPrefixOf l = true ↔ ∃ t, p ++ t = l := by
  induction p generalizing l with
  | nil => simp [List.isPrefixOf]
  | cons a as ih =>
    cases l with
    | nil => simp [List.isPrefixOf]
    | cons b bs =>
      constructor
      · intro h
        simp only [List.isPrefixOf, Bool.and_eq_true, beq_iff_eq] at h
        obtain ⟨rfl, h2⟩ := h
        obtain ⟨t, rfl⟩ := (ih bs).mp h2
        exact ⟨t, rfl⟩
      · rintro ⟨t, ht⟩
        simp only [List.cons_append, List.cons.injEq] at ht
        obtain ⟨rfl, h2⟩ := ht
        simp only [List.isPrefixOf, Bool.and_eq_true, beq_iff_eq]
        exact ⟨trivial, (ih bs).mpr ⟨t, h2⟩⟩

theorem byteListPre_append {p x : List Byte} (y : List Byte) (h : p.isPrefixOf x = true) :
    p.isPrefixOf (x ++ y) = true := by
  rcases (byteListPre_iff p x).mp h with ⟨t, rfl⟩
  exact (byteListPre_iff p (p ++ t ++ y)).mpr ⟨t ++ y, by simp⟩

theorem byteListPre_length {p l : List Byte} (h : p.isPrefixOf l = true) :
    p.length ≤ l.length := by
  rcases (byteListPre_iff p l).mp h with ⟨t, rfl⟩
  simp

theorem byteListPre_of_append_eq :
    ∀ (p a t r : List Byte), p ++ t = a ++ r → p.length ≤ a.length → p.isPrefixOf a = true
  | [], _, _, _, _, _ => by simp [List.isPrefixOf]
  | x :: p, [], t, r, _, hl => by simp at hl
  | x :: p, y :: a, t, r, h, hl => by
      simp only [List.cons_append, List.cons.injEq] at h
      obtain ⟨rfl, h2⟩ := h
      simp only [List.isPrefixOf, Bool.and_eq_true, beq_iff_eq]
      refine ⟨trivial, byteListPre_of_append_eq p a t r h2 ?_⟩
      simpa using hl

theorem collectPoll_data_over {σ ε ω τ : Type} (S : Nat) (C : Collector σ ε ω) (st : σ)
    (d : Chunk) (rest : List (SourceEvent τ)) (hMAX : C.len st + d.length ≤ USIZE_MAX)
    (h : S < C.len st + d.length) :
    collectPoll S C st (SourceEvent.frame (Frame.data d) :: rest)
      = (Except.error CollectError.overflow, st, []) := by
  have hsat : satAdd (C.len st) d.length = C.len st + d.length := by
    unfold satAdd USIZE_MAX at *
    omega
  have hcs : checkedSub S (satAdd (C.len st) d.length) = none := by
    rw [hsat]
    unfold checkedSub
    rw [if_neg]
    omega
  simp [collectPoll, hcs]

theorem collectPoll_data_zero {σ ε ω τ : Type} (S : Nat) (C : Collector σ ε ω) (st : σ)
    (rest : List (SourceEvent τ)) (h : C.len st ≤ S) :
    collectPoll S C st (SourceEvent.frame (Frame.data []) :: rest)
      = collectPoll S C st rest := by
  have hcs : checkedSub S (satAdd (C.len st) 0) = some (S - satAdd (C.len st) 0) := by
    unfold checkedSub satAdd USIZE_MAX
    rw [if_pos]
    omega
  simp [collectPoll, hcs]

theorem collectPoll_data_app {σ ε ω τ : Type} (S : Nat) (C : Collector σ ε ω) (st st2 : σ)
    (d : Chunk) (rest : List (SourceEvent τ)) (hMAX : C.len st + d.length ≤ USIZE_MAX)
    (h : C.len st + d.length ≤ S) (hd : d ≠ []) (happ : C.append st d = (st2, none)) :
    collectPoll S C st (SourceEvent.frame (Frame.data d) :: rest)
      = ((collectPoll S C st2 rest).1, (collectPoll S C st2 rest).2.1,
          SinkOp.append d :: (collectPoll S C st2 rest).2.2) := by
  have hsat : satAdd (C.len st) d.length = C.len st + d.length := by
    unfold satAdd USIZE_MAX at *
    omega
  have hcs : checkedSub S (satAdd (C.len st) d.length) = some (S - (C.len st + d.length)) := by
    rw [hsat]
    unfold checkedSub
    rw [if_pos h]
  have hdl : ¬ d.length = 0 := by
    simpa [List.length_eq_zero] using hd
  simp [collectPoll, hcs, hdl, happ]

theorem collectPoll_data_appErr {σ ε ω τ : Type} (S : Nat) (C : Collector σ ε ω) (st st2 : σ)
    (e : ε) (d : Chunk) (rest : List (SourceEvent τ)) (hMAX : C.len st + d.length ≤ USIZE_MAX)
    (h : C.len st + d.length ≤ S) (hd : d ≠ []) (happ : C.append st d = (st2, some e)) :
    collectPoll S C st (SourceEvent.frame (Frame.data d) :: rest)
      = (Except.error (CollectError.collector e), st2, [SinkOp.append d]) := by
  have hsat : satAdd (C.len st) d.length = C.len st + d.length := by
    unfold satAdd USIZE_MAX at *
    omega
  have hcs : checkedSub S (satAdd (C.len st) d.length) = some (S - (C.len st + d.length)) := by
    rw [hsat]
    unfold checkedSub
    rw [if_pos h]
  have hdl : ¬ d.length = 0 := by
    simpa [List.length_eq_zero] using hd
  simp [collectPoll, hcs, hdl, happ]

theorem vecRun_ok : ∀ (cs : List Chunk) (acc : Chunk) (L : Nat),
    acc.length + cs.flatten.length ≤ USIZE_MAX → acc.length + cs.flatten.length ≤ L →
    (collectPoll L vecCollector acc (dataEvents cs)).1 = Except.ok (acc ++ cs.flatten)
  | [], acc, L, _, _ => by simp [collectPoll, dataEvents, vecCollector]
  | c :: cs, acc, L, hM, hL => by
      simp only [dataEvents, List.map_cons]
      by_cases hc : c = []
      · subst hc
        rw [collectPoll_data_zero]
        · have := vecRun_ok cs acc L (by simpa using hM) (by simpa using hL)
          simpa [dataEvents] using this
        · simp only [vecCollector]
          simp at hL
          omega
      · rw [collectPoll_data_app L vecCollector acc (acc ++ c) c _ ?_ ?_ hc rfl]
        · have hM2 : (acc ++ c).length + cs.flatten.length ≤ USIZE_MAX := by
            simp at hM ⊢
            omega
          have hL2 : (acc ++ c).length + cs.flatten.length ≤ L := by
            simp at hL ⊢
            omega
          have := vecRun_ok cs (acc ++ c) L hM2 hL2
          simpa [dataEvents, List.append_assoc] using this
        · simp only [vecCollector]
          simp at hM
          omega
        · simp only [vecCollector]
          simp at hL
          omega

theorem vecRun_ov : ∀ (cs : List Chunk) (acc : Chunk) (L : Nat),
    acc.length + cs.flatten.length ≤ USIZE_MAX → acc.length ≤ L →
    L < acc.length + cs.flatten.length →
    (collectPoll L vecCollector acc (dataEvents cs)).1 = Except.error CollectError.overflow ∧
    SinkOp.consume ∉ (collectPoll L vecCollector acc (dataEvents cs)).2.2
  | [], acc, L, _, hacc, hlt => by
      simp at hlt
      omega
  | c :: cs, acc, L, hM, hacc, hlt => by
      simp only [dataEvents, List.map_cons]
      by_cases hover : L < acc.length + c.length
      · rw [collectPoll_data_over L vecCollector acc c _ ?_ ?_]
        · simp
        · simp only [vecCollector]
          simp at hM
          omega
        · simpa only [vecCollector] using hover
      · by_cases hc : c = []
        · subst hc
          rw [collectPoll_data_zero]
          · have := vecRun_ov cs acc L (by simpa using hM) hacc (by simpa using hlt)
            simpa [dataEvents] using this
          · simpa only [vecCollector] using hacc
        · rw [collectPoll_data_app L vecCollector acc (acc ++ c) c _ ?_ ?_ hc rfl]
          · have hM2 : (acc ++ c).length + cs.flatten.length ≤ USIZE_MAX := by
              simp at hM ⊢
              omega
            have hacc2 : (acc ++ c).length ≤ L := by
              simp
              omega
            have hlt2 : L < (acc ++ c).length + cs.flatten.length := by
              simp at hlt ⊢
              omega
            have := vecRun_ov cs (acc ++ c) L hM2 hacc2 hlt2
            simp only [dataEvents] at this
            refine ⟨this.1, ?_⟩
            simp only [List.mem_cons, not_or]
            exact ⟨by simp, this.2⟩
          · simp only [vecCollector]
            simp at hM
            omega
          · simp only [vecCollector]
            omega

theorem collectPoll_append_ne_nil {σ ε ω τ : Type} (S : Nat) (C : Collector σ ε ω)
    (evs : List (SourceEvent τ)) : ∀ (st : σ) (d : Chunk),
    SinkOp.append d ∈ (collectPoll S C st evs).2.2 → d ≠ [] := by
  induction evs with
  | nil =>
    intro st d h
    rcases hc : C.consume st with ⟨st2, r⟩
    cases r <;> simp [collectPoll, hc] at h
  | cons ev rest ih =>
    intro st d h
    match ev with
    | SourceEvent.err e => simp [collectPoll] at h
    | SourceEvent.frame (Frame.trailers hs) =>
      simp only [collectPoll, List.mem_cons] at h
      rcases h with h | h
      · simp at h
      · exact ih _ _ h
    | SourceEvent.frame (Frame.data c) =>
      rcases hcs : checkedSub S (satAdd (C.len st) c.length) with _ | v
      · simp [collectPoll, hcs] at h
      · simp only [collectPoll, hcs] at h
        by_cases hc0 : c.length = 0
        · rw [if_pos hc0] at h
          exact ih _ _ h
        · rw [if_neg hc0] at h
          rcases ha : C.append st c with ⟨st2, oe⟩
          rcases oe with _ | e
          · rw [ha] at h
            simp only [List.mem_cons] at h
            rcases h with h | h
            · simp only [SinkOp.append.injEq] at h
              subst h
              simpa [List.length_eq_zero] using hc0
            · exact ih _ _ h
          · rw [ha] at h
            simp only [List.mem_singleton, SinkOp.append.injEq] at h
            subst h
            simpa [List.length_eq_zero] using hc0

theorem dcFeed_plain (M : ZstdModel) : ∀ (cs : List Chunk) (b : List Byte),
    dcFeedAll M (DecompressState.plain b) cs = (DecompressState.plain (b ++ cs.flatten), none)
  | [], b => by simp [dcFeedAll]
  | c :: cs, b => by
      have hstep : dcAppend M (DecompressState.plain b) c
          = (DecompressState.plain (b ++ c), none) := by
        simp [dcAppend]
      simp only [dcFeedAll, hstep]
      rw [dcFeed_plain M cs (b ++ c)]
      simp [List.append_assoc]

theorem dcFeed_uninit_noMagic (M : ZstdModel) : ∀ (cs : List Chunk) (b : List Byte),
    b.length < ZSTD_HEADER.length →
    ZSTD_HEADER.isPrefixOf (b ++ cs.flatten) = false →
    dcFeedAll M (DecompressState.uninit b) cs
      = ((if (b ++ cs.flatten).length < ZSTD_HEADER.length
          then DecompressState.uninit (b ++ cs.flatten)
          else DecompressState.plain (b ++ cs.flatten)), none)
  | [], b, hb, _ => by
      simp only [dcFeedAll, List.flatten_nil, List.append_nil]
      rw [if_pos hb]
  | c :: cs, b, hb, hnm => by
      have hnm2 : ZSTD_HEADER.isPrefixOf ((b ++ c) ++ cs.flatten) = false := by
        rw [List.append_assoc]
        simpa using hnm
      by_cases hlen : (b ++ c).length < ZSTD_HEADER.length
      · have hstep : dcAppend M (DecompressState.uninit b) c
            = (DecompressState.uninit (b ++ c), none) := by
          simp only [dcAppend]
          rw [if_pos hlen]
        simp only [dcFeedAll, hstep]
        rw [dcFeed_uninit_noMagic M cs (b ++ c) hlen hnm2]
        simp [List.append_assoc]
      · have hpm : ZSTD_HEADER.isPrefixOf (b ++ c) = false := by
          rcases h : ZSTD_HEADER.isPrefixOf (b ++ c) with _ | _
          · rfl
          · exfalso
            have h2 := byteListPre_append cs.flatten h
            rw [h2] at hnm2
            cases hnm2
        have hstep : dcAppend M (DecompressState.uninit b) c
            = (DecompressState.plain (b ++ c), none) := by
          simp only [dcAppend]
          rw [if_neg hlen]
          simp [hpm]
        simp only [dcFeedAll, hstep]
        rw [dcFeed_plain M cs (b ++ c)]
        have hge : ¬ (b ++ (c :: cs).flatten).length < ZSTD_HEADER.length := by
          simp only [List.flatten_cons, List.length_append] at *
          omega
        rw [if_neg hge]
        simp [List.append_assoc]

theorem dcFeed_zstd (M : ZstdModel) : ∀ (cs : List Chunk) (a : List Byte),
    (∀ p t, p ++ t = cs.flatten → M.accepts (a ++ p) = true) →
    dcFeedAll M (DecompressState.zstd a) cs = (DecompressState.zstd (a ++ cs.flatten), none)
  | [], a, _ => by simp [dcFeedAll]
  | c :: cs, a, hacc => by
      have h1 : M.accepts (a ++ c) = true := hacc c cs.flatten (by simp)
      have hstep : dcAppend M (DecompressState.zstd a) c
          = (DecompressState.zstd (a ++ c), none) := by
        simp [dcAppend, h1]
      simp only [dcFeedAll, hstep]
      rw [dcFeed_zstd M cs (a ++ c) ?_]
      · simp [List.append_assoc]
      · intro p t hpt
        have := hacc (c ++ p) t (by simp [← hpt])
        simpa [List.append_assoc] using this

theorem dcFeed_uninit_magic (M : ZstdModel) : ∀ (cs : List Chunk) (b : List Byte),
    b.length < ZSTD_HEADER.length →
    ZSTD_HEADER.isPrefixOf (b ++ cs.flatten) = true →
    (∀ p t, p ++ t = b ++ cs.flatten → ZSTD_HEADER.length ≤ p.length → M.accepts p = true) →
    dcFeedAll M (DecompressState.uninit b) cs = (DecompressState.zstd (b ++ cs.flatten), none)
  | [], b, hb, hm, _ => by
      exfalso
      have := byteListPre_length hm
      simp at this
      omega
  | c :: cs, b, hb, hm, hacc => by
      have hmassoc : ZSTD_HEADER.isPrefixOf ((b ++ c) ++ cs.flatten) = true := by
        rw [List.append_assoc]
        simpa using hm
      by_cases hlen : (b ++ c).length < ZSTD_HEADER.length
      · have hstep : dcAppend M (DecompressState.uninit b) c
            = (DecompressState.uninit (b ++ c), none) := by
          simp only [dcAppend]
          rw [if_pos hlen]
        simp only [dcFeedAll, hstep]
        rw [dcFeed_uninit_magic M cs (b ++ c) hlen hmassoc ?_]
        · simp [List.append_assoc]
        · intro p t hpt hple
          refine hacc p t ?_ hple
          rw [hpt, List.append_assoc]
          simp
      · have hm2 : ZSTD_HEADER.isPrefixOf (b ++ c) = true := by
          rcases (byteListPre_iff _ _).mp hmassoc with ⟨t, ht⟩
          exact byteListPre_of_append_eq ZSTD_HEADER (b ++ c) t cs.flatten ht
            (le_of_not_lt hlen)
        have ha2 : M.accepts (b ++ c) = true := by
          refine hacc (b ++ c) cs.flatten ?_ (le_of_not_lt hlen)
          simp
        have hstep : dcAppend M (DecompressState.uninit b) c
            = (DecompressState.zstd (b ++ c), none) := by
          simp only [dcAppend]
          rw [if_neg hlen]
          simp [hm2, ha2]
        simp only [dcFeedAll, hstep]
        rw [dcFeed_zstd M cs (b ++ c) ?_]
        · simp [List.append_assoc]
        · intro p t hpt
          refine hacc ((b ++ c) ++ p) t ?_ ?_
          · rw [List.append_assoc, List.append_assoc, hpt]
            simp
          · simp only [List.length_append] at *
            omega

theorem filterFlatten : ∀ (cs : List Chunk),
    (cs.filter (fun c => !c.isEmpty)).flatten = cs.flatten
  | [] => rfl
  | c :: cs => by
      rcases hb : c.isEmpty with _ | _
      · simp [List.filter_cons, hb, filterFlatten cs]
      · have hnil : c = [] := by simpa using hb
        subst hnil
        simp [List.filter_cons, filterFlatten cs]

/-! ## Claims -/

/-- C9: the fixed-buffer `Body`, polled while non-empty, returns `Ready` with a
single data frame holding the whole remaining buffer and leaves the body
empty; polled while empty it returns `Ready(None)`; it never returns
`Pending`, and its error type is uninhabited so a yielded frame is always
`Ok`. -/
theorem c9_body_poll (b : Body) :
    (b.inner ≠ [] → Body.pollFrame b
        = (Poll.ready (some (Except.ok (Frame.data b.inner))), Body.mk [])) ∧
    (b.inner = [] → Body.pollFrame b = (Poll.ready none, b)) ∧
    (Body.pollFrame b).1 ≠ Poll.pending ∧
    (∀ o, (Body.pollFrame b).1 = Poll.ready o → ∀ r ∈ o, ∃ fr, r = Except.ok fr) := by
  refine ⟨?_, ?_, ?_, ?_⟩
  · intro h
    unfold Body.pollFrame
    rw [if_pos]
    simpa using h
  · intro h
    unfold Body.pollFrame
    rw [if_neg]
    simp [h]
  · unfold Body.pollFrame
    split <;> simp
  · intro o _ r hr
    cases r with
    | ok fr => exact ⟨fr, rfl⟩
    | error e => cases e

/-- C9 witness at the concrete body `[1]`. -/
theorem c9_witness :
    Body.pollFrame (Body.mk [1])
      = (Poll.ready (some (Except.ok (Frame.data [1]))), Body.mk []) :=
  (c9_body_poll (Body.mk [1])).1 (by decide)

/-- C10: `consume` resets both built-in collectors to the initial empty state:
the plain collector swaps in an empty buffer and the decompressing collector
sets `Uninit([])` before finalizing the old state (whatever that state was,
including a failing zstd flush); afterwards `len` is `0` and a second
`consume` returns `Ok` with empty output. -/
theorem c10_consume_resets (M : ZstdModel) (v : Chunk) (st : DecompressState) :
    vecCollector.consume v = ([], Except.ok v) ∧
    vecCollector.len ([] : Chunk) = 0 ∧
    vecCollector.consume ([] : Chunk) = ([], Except.ok ([] : Chunk)) ∧
    (dcConsume M st).1 = DecompressState.uninit [] ∧
    dcLen M (DecompressState.uninit []) = 0 ∧
    dcConsume M (DecompressState.uninit []) = (DecompressState.uninit [], Except.ok []) := by
  refine ⟨rfl, rfl, rfl, ?_, rfl, rfl⟩
  cases st with
  | uninit b => rfl
  | plain b => rfl
  | zstd a =>
    by_cases hf : M.flushOk a = true <;> simp [dcConsume, hf]

/-- C1 counterexample: after absorbing the 4-byte magic number — a prefix of
every zstd-compressed stream — the decompressing sink is in the zstd state
with 4 compressed input bytes absorbed, yet `len` reports `0` (the length of
the decoded output written so far), not `4`. -/
theorem c1_counterexample :
    dcAppend mW (DecompressState.uninit []) ZSTD_HEADER
        = (DecompressState.zstd ZSTD_HEADER, none) ∧
    ZSTD_HEADER.length = 4 ∧
    dcLen mW (DecompressState.zstd ZSTD_HEADER) = 0 := by
  refine ⟨by decide, rfl, rfl⟩

/-- C1 amended: `len` returns the buffer length (bytes absorbed) in the
`Uninit` and `Plain` states, but in the `Zstd` state it returns
`decoder.get_ref().len()` — the number of decoded bytes written to the
decoder's output buffer so far — not the number of compressed input bytes
absorbed. -/
theorem c1_len_amended (M : ZstdModel) (b a : List Byte) :
    dcLen M (DecompressState.uninit b) = b.length ∧
    dcLen M (DecompressState.plain b) = b.length ∧
    dcLen M (DecompressState.zstd a) = (M.outSoFar a).length :=
  ⟨rfl, rfl, rfl⟩

/-- C2: with the plain accumulator over data frames of total size `s` (no
transport errors), the `Collect` future resolves with success if and only if
`s ≤ L`; for `s > L` it resolves with the `Overflow` error and `consume` is
never invoked.  (The hypothesis bounds `s` by `usize::MAX`, which any
memory-resident body satisfies.) -/
theorem c2_success_iff_limit (L : Nat) (cs : List Chunk)
    (hM : cs.flatten.length ≤ USIZE_MAX) :
    ((∃ out, (collectPoll L vecCollector [] (dataEvents cs)).1 = Except.ok out)
        ↔ cs.flatten.length ≤ L) ∧
    (L < cs.flatten.length →
      (collectPoll L vecCollector [] (dataEvents cs)).1 = Except.error CollectError.overflow ∧
      SinkOp.consume ∉ (collectPoll L vecCollector [] (dataEvents cs)).2.2) := by
  constructor
  · constructor
    · rintro ⟨out, hout⟩
      by_contra hgt
      push_neg at hgt
      have hov := vecRun_ov cs [] L (by simpa using hM) (by simp) (by simpa using hgt)
      rw [hov.1] at hout
      cases hout
    · intro hle
      exact ⟨[] ++ cs.flatten, vecRun_ok cs [] L (by simpa using hM) (by simpa using hle)⟩
  · intro hlt
    exact vecRun_ov cs [] L (by simpa using hM) (by simp) (by simpa using hlt)

/-- C2 witness: chunk `[1, 2]` with limit 2 succeeds; with limit 1 it
overflows and `consume` is never invoked. -/
theorem c2_witness :
    ((∃ out, (collectPoll 2 vecCollector [] (dataEvents [[1, 2]])).1 = Except.ok out)
        ↔ ([[1, 2]] : List Chunk).flatten.length ≤ 2) ∧
    ((1 : Nat) < ([[1, 2]] : List Chunk).flatten.length →
      (collectPoll 1 vecCollector [] (dataEvents [[1, 2]])).1
          = Except.error CollectError.overflow ∧
      SinkOp.consume ∉ (collectPoll 1 vecCollector [] (dataEvents [[1, 2]])).2.2) :=
  ⟨(c2_success_iff_limit 2 [[1, 2]] (by decide)).1,
   (c2_success_iff_limit 1 [[1, 2]] (by decide)).2⟩

/-- C3: on a data frame the engine checks the limit strictly before mutating
the sink: if the sink's current length plus the chunk length exceeds `S`, it
terminates at once with `Overflow`, leaving the sink state intact, performing
no sink call at all and discarding the rest of the stream; `append` is only
ever invoked in the branch where the sum is within the limit.  (`hrep` bounds
the sum by `usize::MAX`, where `saturating_add` is exact.) -/
theorem c3_check_before_append {σ ε ω τ : Type} (S : Nat) (C : Collector σ ε ω) (st : σ)
    (d : Chunk) (rest : List (SourceEvent τ)) (hrep : C.len st + d.length ≤ USIZE_MAX) :
    (S < C.len st + d.length →
      collectPoll S C st (SourceEvent.frame (Frame.data d) :: rest)
        = (Except.error CollectError.overflow, st, [])) ∧
    (C.len st + d.length ≤ S → d ≠ [] →
      (∀ st2 e, C.append st d = (st2, some e) →
        collectPoll S C st (SourceEvent.frame (Frame.data d) :: rest)
          = (Except.error (CollectError.collector e), st2, [SinkOp.append d])) ∧
      (∀ st2, C.append st d = (st2, none) →
        collectPoll S C st (SourceEvent.frame (Frame.data d) :: rest)
          = ((collectPoll S C st2 rest).1, (collectPoll S C st2 rest).2.1,
              SinkOp.append d :: (collectPoll S C st2 rest).2.2))) := by
  refine ⟨fun h => collectPoll_data_over S C st d rest hrep h, fun hle hd => ⟨?_, ?_⟩⟩
  · intro st2 e happ
    exact collectPoll_data_appErr S C st st2 e d rest hrep hle hd happ
  · intro st2 happ
    exact collectPoll_data_app S C st st2 d rest hrep hle hd happ

/-- C3 witness: a 2-byte chunk against limit 1 overflows with the sink left
empty and untouched; against limit 9 it is appended. -/
theorem c3_witness :
    collectPoll 1 vecCollector []
        ([SourceEvent.frame (Frame.data [7, 8])] : List (SourceEvent Unit))
        = (Except.error CollectError.overflow, ([] : Chunk), ([] : List SinkOp)) ∧
    collectPoll 9 vecCollector []
        ([SourceEvent.frame (Frame.data [7, 8])] : List (SourceEvent Unit))
        = ((collectPoll 9 vecCollector [7, 8] ([] : List (SourceEvent Unit))).1,
           (collectPoll 9 vecCollector [7, 8] ([] : List (SourceEvent Unit))).2.1,
           SinkOp.append [7, 8]
             :: (collectPoll 9 vecCollector [7, 8] ([] : List (SourceEvent Unit))).2.2) :=
  ⟨(c3_check_before_append 1 vecCollector [] [7, 8] [] (by decide)).1 (by decide),
   ((c3_check_before_append 9 vecCollector [] [7, 8] [] (by decide)).2 (by decide)
      (by decide)).2 [7, 8] rfl⟩

/-- C4: aggregating any finite sequence of data chunks with the plain `Vec`
accumulator under a sufficient limit resolves with exactly the concatenation
of the chunks, in arrival order. -/
theorem c4_output_concat (L : Nat) (cs : List Chunk)
    (hM : cs.flatten.length ≤ USIZE_MAX) (hL : cs.flatten.length ≤ L) :
    (collectPoll L vecCollector [] (dataEvents cs)).1 = Except.ok cs.flatten := by
  simpa using vecRun_ok cs [] L (by simpa using hM) (by simpa using hL)

/-- C4 witness: chunks `[1]`, `[2, 3]` under limit 3 yield `[1, 2, 3]`. -/
theorem c4_witness :
    (collectPoll 3 vecCollector [] (dataEvents [[1], [2, 3]])).1
      = Except.ok ([[1], [2, 3]] : List Chunk).flatten :=
  c4_output_concat 3 [[1], [2, 3]] (by decide) (by decide)

/-- C5 counterexample: the claim fails for the repository's own decompressing
collector.  The engine's limit check runs *before* the zero-length test, using
`collector.len()`; in the zstd state `len()` is the decoded output written so
far, which can exceed the limit.  With limit 5 and the single 5-byte chunk
`ZSTD_HEADER ++ [0]` (decoded output 20 bytes under the modelled 20× expansion)
the run succeeds; inserting one zero-length chunk after it flips the outcome
to `Overflow`, so a zero-length chunk is subjected to the limit check and can
change the overflow decision. -/
theorem c5_counterexample :
    (collectPoll 5 (decompressCollector mExpand) (DecompressState.uninit [])
        (dataEvents [ZSTD_HEADER ++ [0]])).1 = Except.ok (List.replicate 20 0) ∧
    (collectPoll 5 (decompressCollector mExpand) (DecompressState.uninit [])
        (dataEvents [ZSTD_HEADER ++ [0], []])).1 = Except.error CollectError.overflow := by
  decide

/-- C5 amended: a zero-length chunk is never forwarded to the collector's
`append` (first conjunct, for every collector and run); it does, however, pass
through the limit check `len() + 0 ≤ S`, so it is harmless exactly when the
collector's reported length is within the limit — in particular for the plain
`Vec` accumulator, where removing (equivalently, inserting) zero-length chunks
never changes the resolved outcome (second conjunct).  A collector whose
reported length exceeds the limit mid-run (the decompressing collector during
expansion) can overflow on a zero-length chunk. -/
theorem c5_empty_chunks_amended :
    (∀ (σ ε ω τ : Type) (S : Nat) (C : Collector σ ε ω) (st : σ)
        (evs : List (SourceEvent τ)) (d : Chunk),
      SinkOp.append d ∈ (collectPoll S C st evs).2.2 → d ≠ []) ∧
    (∀ (L : Nat) (cs : List Chunk), cs.flatten.length ≤ USIZE_MAX →
      (collectPoll L vecCollector [] (dataEvents cs)).1
        = (collectPoll L vecCollector [] (dataEvents (cs.filter (fun c => !c.isEmpty)))).1) := by
  constructor
  · intro σ ε ω τ S C st evs d h
    exact collectPoll_append_ne_nil S C evs st d h
  · intro L cs hM
    have hflat : (cs.filter (fun c => !c.isEmpty)).flatten = cs.flatten := filterFlatten cs
    by_cases hL : cs.flatten.length ≤ L
    · rw [vecRun_ok cs [] L (by simpa using hM) (by simpa using hL) ,
        vecRun_ok (cs.filter (fun c => !c.isEmpty)) [] L
          (by simpa [hflat] using hM) (by simpa [hflat] using hL), hflat]
    · push_neg at hL
      rw [(vecRun_ov cs [] L (by simpa using hM) (by simp) (by simpa using hL)).1,
        (vecRun_ov (cs.filter (fun c => !c.isEmpty)) [] L
          (by simpa [hflat] using hM) (by simp) (by simpa [hflat] using hL)).1]

/-- C5 witness: for the plain accumulator, the run over `[[], [7, 8], []]`
resolves identically to the run with the zero-length chunks removed. -/
theorem c5_witness :
    (collectPoll 2 vecCollector [] (dataEvents [[], [7, 8], []])).1
      = (collectPoll 2 vecCollector []
          (dataEvents (([[], [7, 8], []] : List Chunk).filter (fun c => !c.isEmpty)))).1 :=
  c5_empty_chunks_amended.2 2 [[], [7, 8], []] (by decide)

/-- C6: for every input whose 4-byte prefix is not the zstd magic number
(including all inputs shorter than 4 bytes), and every split of it into
chunks, the decompressing sink absorbs every chunk without error and
finalizing returns exactly the input bytes unchanged; inputs shorter than the
magic length are still in the `Uninit` state when finalized. -/
theorem c6_plain_transparency (M : ZstdModel) (cs : List Chunk)
    (h : ZSTD_HEADER.isPrefixOf cs.flatten = false) :
    (dcFeedAll M (DecompressState.uninit []) cs).2 = none ∧
    (dcConsume M (dcFeedAll M (DecompressState.uninit []) cs).1).2 = Except.ok cs.flatten ∧
    (cs.flatten.length < ZSTD_HEADER.length →
      (dcFeedAll M (DecompressState.uninit []) cs).1 = DecompressState.uninit cs.flatten) := by
  have hrun := dcFeed_uninit_noMagic M cs [] (by decide) (by simpa using h)
  simp only [List.nil_append] at hrun
  have h1 : (dcFeedAll M (DecompressState.uninit []) cs).1
      = if cs.flatten.length < ZSTD_HEADER.length then DecompressState.uninit cs.flatten
        else DecompressState.plain cs.flatten := by rw [hrun]
  refine ⟨by rw [hrun], ?_, ?_⟩
  · rw [h1]
    by_cases hl : cs.flatten.length < ZSTD_HEADER.length
    · rw [if_pos hl]
      rfl
    · rw [if_neg hl]
      rfl
  · intro hl
    rw [h1, if_pos hl]

/-- C6 witness: the plain bytes `[1, 2, 3, 4, 5]` split as `[1, 2]`,
`[3, 4, 5]` pass through unchanged. -/
theorem c6_witness :
    (dcFeedAll mW (DecompressState.uninit []) [[1, 2], [3, 4, 5]]).2 = none ∧
    (dcConsume mW (dcFeedAll mW (DecompressState.uninit []) [[1, 2], [3, 4, 5]]).1).2
      = Except.ok ([[1, 2], [3, 4, 5]] : List Chunk).flatten :=
  ⟨(c6_plain_transparency mW [[1, 2], [3, 4, 5]] (by decide)).1,
   (c6_plain_transparency mW [[1, 2], [3, 4, 5]] (by decide)).2.1⟩

/-- C7: feeding a zstd-compressed stream (`cs.flatten`), split into arbitrary
chunks, through the decompressing sink and then finalizing yields exactly the
original payload `P`.  The zstd codec itself is external, so its contract is
hypothesized as the spec states it: compressed streams start with the magic
number, the decoder accepts every prefix of a valid stream, and flushing after
the full stream produces the payload. -/
theorem c7_zstd_roundtrip (M : ZstdModel) (P : List Byte) (cs : List Chunk)
    (hmagic : ZSTD_HEADER.isPrefixOf cs.flatten = true)
    (haccept : ∀ p t, p ++ t = cs.flatten → ZSTD_HEADER.length ≤ p.length →
      M.accepts p = true)
    (hflush : M.flushOk cs.flatten = true)
    (hdec : M.outFinal cs.flatten = P) :
    (dcFeedAll M (DecompressState.uninit []) cs).2 = none ∧
    (dcConsume M (dcFeedAll M (DecompressState.uninit []) cs).1).2 = Except.ok P := by
  have hrun := dcFeed_uninit_magic M cs [] (by decide) (by simpa using hmagic)
      (by simpa using haccept)
  simp only [List.nil_append] at hrun
  rw [hrun]
  refine ⟨rfl, ?_⟩
  simp [dcConsume, hflush, hdec]

/-- C7 witness: the compressed stream `ZSTD_HEADER ++ [9]` of payload `[9]`
under the concrete codec model, split as `[0x28, 0xB5]`, `[0x2F, 0xFD, 9]`,
decodes back to `[9]`. -/
theorem c7_witness :
    (dcFeedAll mW (DecompressState.uninit []) [[0x28, 0xB5], [0x2F, 0xFD, 9]]).2 = none ∧
    (dcConsume mW (dcFeedAll mW (DecompressState.uninit [])
        [[0x28, 0xB5], [0x2F, 0xFD, 9]]).1).2 = Except.ok [9] :=
  c7_zstd_roundtrip mW [9] [[0x28, 0xB5], [0x2F, 0xFD, 9]] (by decide)
    (fun _ _ _ _ => rfl) rfl (by decide)

/-- C8: the decompressing sink leaves `Uninit` exactly when the accumulated
prefix first reaches the 4-byte magic length — to the zstd streaming state
(fed the whole buffered prefix) when the prefix starts with the magic number
and the decoder accepts it, otherwise to plain passthrough with the buffered
prefix moved unchanged — and afterwards no state transition ever occurs:
`Plain` stays `Plain` and `Zstd` stays `Zstd` for every further `append`. -/
theorem c8_single_transition (M : ZstdModel) (b d : List Byte) :
    ((b ++ d).length < ZSTD_HEADER.length →
      dcAppend M (DecompressState.uninit b) d = (DecompressState.uninit (b ++ d), none)) ∧
    (ZSTD_HEADER.length ≤ (b ++ d).length →
      ZSTD_HEADER.isPrefixOf (b ++ d) = false →
      dcAppend M (DecompressState.uninit b) d = (DecompressState.plain (b ++ d), none)) ∧
    (ZSTD_HEADER.length ≤ (b ++ d).length →
      ZSTD_HEADER.isPrefixOf (b ++ d) = true → M.accepts (b ++ d) = true →
      dcAppend M (DecompressState.uninit b) d = (DecompressState.zstd (b ++ d), none)) ∧
    dcAppend M (DecompressState.plain b) d = (DecompressState.plain (b ++ d), none) ∧
    (∀ st2 oe, dcAppend M (DecompressState.zstd b) d = (st2, oe) →
      st2 = DecompressState.zstd (b ++ d)) := by
  refine ⟨?_, ?_, ?_, rfl, ?_⟩
  · intro h
    simp only [dcAppend]
    rw [if_pos h]
  · intro h1 h2
    simp only [dcAppend]
    rw [if_neg (not_lt.mpr h1)]
    simp [h2]
  · intro h1 h2 h3
    simp only [dcAppend]
    rw [if_neg (not_lt.mpr h1)]
    simp [h2, h3]
  · intro st2 oe h
    simp only [dcAppend] at h
    split at h <;>
      (simp only [Prod.mk.injEq] at h
       exact h.1.symm)

/-- C8 witness: the buffer `[0x28]` plus chunk `[0xB5, 0x2F, 0xFD]` reaches
the magic length with a magic prefix and transitions to the zstd state. -/
theorem c8_witness :
    dcAppend mW (DecompressState.uninit [0x28]) [0xB5, 0x2F, 0xFD]
      = (DecompressState.zstd ([0x28] ++ [0xB5, 0x2F, 0xFD]), none) :=
  (c8_single_transition mW [0x28] [0xB5, 0x2F, 0xFD]).2.2.1 (by decide) (by decide) rfl
